import Mathlib

/-!
Verification of the `iir` installer (WSU-Carbon-Lab/iir, `src/main.rs`).

The program is a one-shot CLI installer that resolves a source of Igor Pro
procedure files (a git URL or a local path), validates that the resolved
directory contains `user` and `igor` subdirectories, determines the target
Igor Pro version, computes the two WaveMetrics destination directories, and
creates one symbolic link per immediate child of each source subdirectory.

The shallow embedding below models the host operating system (home and
documents directories, the filesystem, git cloning, symlink creation and
stdin) as an explicit `Env` record of oracles, and each Rust function as a
Lean function over that record.  Fallible operations return `Except` values;
`exit(1)` and panics are modelled as error results.  Side effects (the clone
performed, the destination paths computed, the links created) are returned
explicitly so that theorems can speak about what was and was not mutated.
-/

/-- Filesystem paths.  The Rust code manipulates `PathBuf` values only by
`join`, so a path is modelled as its textual form. -/
abbrev FsPath := String

/-- `PathBuf::join`: append one component (or a relative multi-component
suffix, as in `get_wave_metrics_path`) behind a separator. -/
def FsPath.join (p : FsPath) (s : String) : FsPath := p ++ "/" ++ s

/-- What `Path::is_file` / `Path::is_dir` report for a directory entry:
a regular file, a directory, or anything else (special file, broken link). -/
inductive EntryKind where
  | file
  | dir
  | other
deriving DecidableEq, Repr

/-- One immediate child of a directory, as yielded by `fs::read_dir`. -/
structure DirEntry where
  name : String
  kind : EntryKind
deriving DecidableEq, Repr

/-- The two symlink primitives used by the code: `symlink_file` and
`symlink_dir`. -/
inductive LinkKind where
  | file
  | dir
deriving DecidableEq, Repr

/-- A symbolic link created by the run: its kind, its target (`src`) and its
location (`dst`). -/
structure Link where
  kind : LinkKind
  src : FsPath
  dst : FsPath
deriving DecidableEq, Repr

/-- The ways a run can terminate unsuccessfully.  `missingDirs` models the
`exit(1)` after the structural check; `homeMissing` and `docMissing` model
the two `expect` panics; the rest model propagated `Err` values. -/
inductive RunError where
  | homeMissing
  | docMissing
  | cloneFailed
  | ioError
  | missingDirs
  | linkFailed
deriving DecidableEq, Repr

instance {ε α : Type} [DecidableEq ε] [DecidableEq α] : DecidableEq (Except ε α) := fun a b =>
  match a, b with
  | .ok x, .ok y =>
    if h : x = y then .isTrue (congrArg Except.ok h)
    else .isFalse (fun hh => h (Except.ok.inj hh))
  | .error x, .error y =>
    if h : x = y then .isTrue (congrArg Except.error h)
    else .isFalse (fun hh => h (Except.error.inj hh))
  | .ok _, .error _ => .isFalse (fun hh => Except.noConfusion hh)
  | .error _, .ok _ => .isFalse (fun hh => Except.noConfusion hh)

/-- The host environment: every operating-system capability the program
consumes, as oracles.  `canonical` models `fs::canonicalize` (the result of
canonicalizing a path string, `none` when the path does not exist or is not
accessible); the program under verification never invokes it, but the
specification's resolver contract is stated against it. -/
structure Env where
  homeDir : Option FsPath
  docDir : Option FsPath
  dirExists : FsPath → Bool
  mkdirOk : FsPath → Bool
  readDir : FsPath → Option (List DirEntry)
  cloneOk : String → FsPath → Bool
  linkOk : LinkKind → FsPath → FsPath → Bool
  canonical : String → Option FsPath
  stdinLine : String

/-- `is_git_url` (main.rs:133-135): `repo.starts_with("http") ||
repo.starts_with("git")`.  Rust `str::starts_with` is a literal prefix test
on the character sequence. -/
def is_git_url (repo : String) : Bool :=
  "http".data.isPrefixOf repo.data || "git".data.isPrefixOf repo.data

/-- Rust `str::split(sep)`: split a character sequence at every occurrence
of `sep`.  `"".split s = [""]`, `"a/".split '/' = ["a", ""]`, exactly as in
Rust. -/
def rsplit (sep : Char) : List Char → List (List Char)
  | [] => [[]]
  | c :: cs =>
    if c = sep then
      [] :: rsplit sep cs
    else
      match rsplit sep cs with
      | [] => [[c]]
      | g :: gs => (c :: g) :: gs

/-- `repo.split('/').last().unwrap_or("repository")` (main.rs:118): the cache
directory name derived from the URL. -/
def repo_name (repo : String) : String :=
  match (rsplit '/' repo.data).getLast? with
  | some seg => ⟨seg⟩
  | none => "repository"

/-- The clone destination computed at main.rs:118-119:
`<home>/.igor/<repo_name>`. -/
def clone_dest (home : FsPath) (repo : String) : FsPath :=
  (home.join ".igor").join (repo_name repo)

/-- Outcome of source resolution: whether a clone was invoked (and with what
arguments), and the resolved repository directory or the error. -/
structure CloneOutcome where
  cloned : Option (String × FsPath)
  result : Except RunError FsPath
deriving DecidableEq, Repr

/-- `clone_repository_into_igor` (main.rs:106-130): locate `<home>/.igor`,
create it if absent, derive the repository directory name from the URL, and
clone only when that directory does not already exist. -/
def clone_repository_into_igor (env : Env) (repo : String) : CloneOutcome :=
  match env.homeDir with
  | none => ⟨none, .error .homeMissing⟩
  | some home =>
    let igorDir := home.join ".igor"
    if !env.dirExists igorDir && !env.mkdirOk igorDir then
      ⟨none, .error .ioError⟩
    else
      let repoDir := clone_dest home repo
      if env.dirExists repoDir then
        ⟨none, .ok repoDir⟩
      else if env.cloneOk repo repoDir then
        ⟨some (repo, repoDir), .ok repoDir⟩
      else
        ⟨some (repo, repoDir), .error .cloneFailed⟩

/-- The source-resolution step of `install_procedure_files` (main.rs:70-74):
a git URL is cloned into the cache, every other spec is used verbatim as a
`PathBuf` (`Path::new(repo_path).to_path_buf()`). -/
def resolve_source (env : Env) (repo_path : String) : CloneOutcome :=
  if is_git_url repo_path then
    clone_repository_into_igor env repo_path
  else
    ⟨none, .ok repo_path⟩

/-- The fixed install root scanned for versions (main.rs:139). -/
def igorInstallRoot : FsPath := "C:\\Program Files\\WaveMetrics"

/-- `list_igor_versions` (main.rs:138-151): read the install root, keep the
directories, collect their names.  An unreadable root propagates the error;
an empty root yields the empty candidate list without error. -/
def list_igor_versions (env : Env) : Except RunError (List String) :=
  match env.readDir igorInstallRoot with
  | none => .error .ioError
  | some entries => .ok ((entries.filter (fun e => e.kind == .dir)).map (fun e => e.name))

/-- Rust `str::trim`: strip leading and trailing whitespace from the
character sequence. -/
def rtrim (s : String) : String :=
  ⟨((s.data.dropWhile Char.isWhitespace).reverse.dropWhile Char.isWhitespace).reverse⟩

/-- `select_igor_version` (main.rs:154-160): list the versions, then return
one trimmed line of interactive input.  The entered text is not validated
against the candidate list. -/
def select_igor_version (env : Env) : Except RunError String :=
  match list_igor_versions env with
  | .error e => .error e
  | .ok _ => .ok (rtrim env.stdinLine)

/-- The two folder roles, with the literal destination folder names passed at
main.rs:91-92. -/
inductive FolderRole where
  | user
  | igor
deriving DecidableEq, Repr

def FolderRole.folderName : FolderRole → String
  | .user => "User Procedures"
  | .igor => "Igor Procedures"

/-- `get_wave_metrics_path` (main.rs:163-170): pure path composition under
the documents directory; panics (modelled as `docMissing`) when the
documents directory cannot be determined.  It consults nothing else — in
particular it never checks that the composed path exists. -/
def get_wave_metrics_path (docDir : Option FsPath) (version folder_type : String) :
    Except RunError FsPath :=
  match docDir with
  | none => .error .docMissing
  | some d => .ok (d.join ("WaveMetrics/Igor Pro " ++ version ++ " User Files/" ++ folder_type))

/-- Result of one linking batch: the links actually created (also on
failure) and whether the batch completed without error. -/
structure FsOutcome where
  created : List Link
  ok : Bool
deriving DecidableEq, Repr

/-- The loop body of `link_files` (main.rs:174-184): for each entry compute
`dst_dir/<name>`, link files with `symlink_file`, directories with
`symlink_dir`, skip everything else; a failed link creation aborts the loop
at once (`?`), leaving the earlier links in place. -/
def linkEntries (lo : LinkKind → FsPath → FsPath → Bool) (srcDir dstDir : FsPath) :
    List DirEntry → FsOutcome
  | [] => ⟨[], true⟩
  | e :: es =>
    let srcPath := srcDir.join e.name
    let dstPath := dstDir.join e.name
    match e.kind with
    | .file =>
      if lo .file srcPath dstPath then
        let r := linkEntries lo srcDir dstDir es
        ⟨⟨.file, srcPath, dstPath⟩ :: r.created, r.ok⟩
      else
        ⟨[], false⟩
    | .dir =>
      if lo .dir srcPath dstPath then
        let r := linkEntries lo srcDir dstDir es
        ⟨⟨.dir, srcPath, dstPath⟩ :: r.created, r.ok⟩
      else
        ⟨[], false⟩
    | .other => linkEntries lo srcDir dstDir es

/-- `link_files` (main.rs:173-186): read the immediate children of the
source directory and link each into the destination. -/
def link_files (env : Env) (srcDir dstDir : FsPath) : FsOutcome :=
  match env.readDir srcDir with
  | none => ⟨[], false⟩
  | some entries => linkEntries env.linkOk srcDir dstDir entries

/-- Observable outcome of a whole `install` run: the clone performed (if
any), the destination paths computed by the Destination Locator, the links
created, and the final result (`.ok` models the success message,
`.error` models a non-zero process exit). -/
structure RunOutcome where
  cloned : Option (String × FsPath)
  destsComputed : List FsPath
  linksCreated : List Link
  result : Except RunError Unit
deriving DecidableEq, Repr

/-- `install_procedure_files` (main.rs:68-103): resolve the source, validate
the `user`/`igor` structure (exiting before any destination work when it
fails), determine the version, compute the two destination paths, then link
the `user` batch and the `igor` batch in that order. -/
def install_procedure_files (env : Env) (repo_path : String) (version : Option String) :
    RunOutcome :=
  let res := resolve_source env repo_path
  match res.result with
  | .error e => ⟨res.cloned, [], [], .error e⟩
  | .ok repoDir =>
    let user_dir := repoDir.join "user"
    let igor_dir := repoDir.join "igor"
    if !env.dirExists user_dir || !env.dirExists igor_dir then
      ⟨res.cloned, [], [], .error .missingDirs⟩
    else
      let ver := match version with
        | some v => Except.ok v
        | none => select_igor_version env
      match ver with
      | .error e => ⟨res.cloned, [], [], .error e⟩
      | .ok igor_version =>
        match get_wave_metrics_path env.docDir igor_version FolderRole.user.folderName with
        | .error e => ⟨res.cloned, [], [], .error e⟩
        | .ok user_procs =>
          match get_wave_metrics_path env.docDir igor_version FolderRole.igor.folderName with
          | .error e => ⟨res.cloned, [user_procs], [], .error e⟩
          | .ok igor_procs =>
            let r1 := link_files env user_dir user_procs
            if r1.ok then
              let r2 := link_files env igor_dir igor_procs
              ⟨res.cloned, [user_procs, igor_procs], r1.created ++ r2.created,
                if r2.ok then .ok () else .error .linkFailed⟩
            else
              ⟨res.cloned, [user_procs, igor_procs], r1.created, .error .linkFailed⟩

/-! ## Helper definitions and lemmas -/

/-- The link that main.rs:179-183 creates for one directory entry: a file
link for a file, a directory link for a directory, nothing otherwise. -/
def childLink (srcDir dstDir : FsPath) (e : DirEntry) : Option Link :=
  match e.kind with
  | .file => some ⟨.file, srcDir.join e.name, dstDir.join e.name⟩
  | .dir => some ⟨.dir, srcDir.join e.name, dstDir.join e.name⟩
  | .other => none

/-- A link oracle under which every link creation succeeds. -/
def alwaysLinkOk : LinkKind → FsPath → FsPath → Bool := fun _ _ _ => true

lemma linkEntries_nil (lo : LinkKind → FsPath → FsPath → Bool) (srcDir dstDir : FsPath) :
    linkEntries lo srcDir dstDir [] = ⟨[], true⟩ := rfl

lemma linkEntries_cons (lo : LinkKind → FsPath → FsPath → Bool) (srcDir dstDir : FsPath)
    (e : DirEntry) (es : List DirEntry) :
    linkEntries lo srcDir dstDir (e :: es) =
      match e.kind with
      | .file =>
        if lo .file (srcDir.join e.name) (dstDir.join e.name) then
          let r := linkEntries lo srcDir dstDir es
          ⟨⟨.file, srcDir.join e.name, dstDir.join e.name⟩ :: r.created, r.ok⟩
        else ⟨[], false⟩
      | .dir =>
        if lo .dir (srcDir.join e.name) (dstDir.join e.name) then
          let r := linkEntries lo srcDir dstDir es
          ⟨⟨.dir, srcDir.join e.name, dstDir.join e.name⟩ :: r.created, r.ok⟩
        else ⟨[], false⟩
      | .other => linkEntries lo srcDir dstDir es := rfl

lemma linkEntries_created_of_ok (lo : LinkKind → FsPath → FsPath → Bool)
    (srcDir dstDir : FsPath) (entries : List DirEntry)
    (h : (linkEntries lo srcDir dstDir entries).ok = true) :
    (linkEntries lo srcDir dstDir entries).created =
      entries.filterMap (childLink srcDir dstDir) := by
  induction entries with
  | nil => rfl
  | cons e es ih =>
    rw [linkEntries_cons] at h ⊢
    cases hk : e.kind with
    | file =>
      simp only [hk] at h ⊢
      by_cases hlo : lo .file (srcDir.join e.name) (dstDir.join e.name) = true
      · simp only [hlo, if_true] at h ⊢
        simp [List.filterMap_cons, childLink, hk, ih h]
      · simp [hlo] at h
    | dir =>
      simp only [hk] at h ⊢
      by_cases hlo : lo .dir (srcDir.join e.name) (dstDir.join e.name) = true
      · simp only [hlo, if_true] at h ⊢
        simp [List.filterMap_cons, childLink, hk, ih h]
      · simp [hlo] at h
    | other =>
      simp only [hk] at h ⊢
      simp [List.filterMap_cons, childLink, hk, ih h]

/-! ## C1 — one link per child, of the child's kind, at `dest_dir/<name>` -/

/-- C1: whenever a linking batch completes successfully, the links created
are exactly one per immediate child, at destination `dest_dir/<child name>`,
a file link for a regular file and a directory link for a directory; in
particular a source with one file `a.ipf` and one subdirectory `b` yields
exactly one file-kind link and one directory-kind link with those names. -/
theorem linkFiles_links_every_child :
    (∀ (lo : LinkKind → FsPath → FsPath → Bool) (srcDir dstDir : FsPath)
        (entries : List DirEntry),
      (linkEntries lo srcDir dstDir entries).ok = true →
      (linkEntries lo srcDir dstDir entries).created =
        entries.filterMap (childLink srcDir dstDir))
    ∧ linkEntries alwaysLinkOk "/repo/user" "/dest" [⟨"a.ipf", .file⟩, ⟨"b", .dir⟩] =
        ⟨[⟨.file, "/repo/user/a.ipf", "/dest/a.ipf"⟩, ⟨.dir, "/repo/user/b", "/dest/b"⟩],
          true⟩ :=
  ⟨linkEntries_created_of_ok, by decide⟩

/-- Witness for C1 at a concrete batch containing a file, a non-regular
entry and a directory. -/
theorem linkFiles_links_every_child_witness :
    (linkEntries alwaysLinkOk "/s" "/d"
        [⟨"x.ipf", .file⟩, ⟨"weird", .other⟩, ⟨"z", .dir⟩]).created =
      [⟨"x.ipf", EntryKind.file⟩, ⟨"weird", EntryKind.other⟩,
        ⟨"z", EntryKind.dir⟩].filterMap (childLink "/s" "/d") :=
  linkFiles_links_every_child.1 alwaysLinkOk "/s" "/d"
    [⟨"x.ipf", .file⟩, ⟨"weird", .other⟩, ⟨"z", .dir⟩] (by decide)

/-! ## C2 — source classification by literal `http` / `git` prefixes -/

/-- C2: a source spec is classified as a remote repository exactly when its
text literally begins with `http` or with `git` (case-sensitively); every
other spec takes the local-path branch.  The concrete cases record that the
match is on the literal text only: `github` (no URL scheme) is remote,
`Http://…` (wrong case) and plain paths are local. -/
theorem is_git_url_spec :
    (∀ repo : String, is_git_url repo = true ↔
      (∃ rest : String, repo = "http" ++ rest) ∨ (∃ rest : String, repo = "git" ++ rest))
    ∧ is_git_url "github" = true
    ∧ is_git_url "Http://example.com/x" = false
    ∧ is_git_url "/home/u/procs" = false := by
  refine ⟨fun repo => ?_, by decide, by decide, by decide⟩
  have hdata : ∀ p : String, (∃ rest : String, repo = p ++ rest) ↔
      ∃ l : List Char, repo.data = p.data ++ l := by
    intro p
    constructor
    · rintro ⟨rest, rfl⟩
      exact ⟨rest.data, rfl⟩
    · rintro ⟨l, hl⟩
      refine ⟨⟨l⟩, ?_⟩
      cases repo with
      | mk d => cases p with
        | mk pd =>
          simp only [String.data] at hl
          simp [hl]
          rfl
  rw [is_git_url, Bool.or_eq_true, List.isPrefixOf_iff_prefix, List.isPrefixOf_iff_prefix,
    hdata "http", hdata "git"]
  constructor
  · rintro (⟨t, ht⟩ | ⟨t, ht⟩)
    · exact Or.inl ⟨t, ht.symm⟩
    · exact Or.inr ⟨t, ht.symm⟩
  · rintro (⟨t, ht⟩ | ⟨t, ht⟩)
    · exact Or.inl ⟨t, ht.symm⟩
    · exact Or.inr ⟨t, ht.symm⟩

/-! ## C10 — entries that are neither files nor directories are skipped -/

/-- C10: a child that is neither a regular file nor a directory produces no
link and no error: the batch behaves exactly as if the entry were absent,
so all remaining entries are still processed. -/
theorem linkFiles_skips_special_entries (lo : LinkKind → FsPath → FsPath → Bool)
    (srcDir dstDir : FsPath) (pre post : List DirEntry) (n : String) :
    linkEntries lo srcDir dstDir (pre ++ ⟨n, .other⟩ :: post) =
      linkEntries lo srcDir dstDir (pre ++ post) := by
  induction pre with
  | nil => rw [List.nil_append, List.nil_append, linkEntries_cons]
  | cons e es ih =>
    rw [List.cons_append, List.cons_append, linkEntries_cons, linkEntries_cons, ih]

/-! ## C3 — structural validation aborts before any destination work -/

/-- C3: when the resolved source directory lacks the `user` subdirectory or
the `igor` subdirectory, the run terminates with the non-zero
`missingDirs` exit, no destination path has been computed and no link has
been created. -/
theorem install_aborts_before_dest_on_missing_subdirs (env : Env) (rp : String)
    (ver : Option String) (repoDir : FsPath)
    (hres : (resolve_source env rp).result = .ok repoDir)
    (hmiss : env.dirExists (repoDir.join "user") = false ∨
             env.dirExists (repoDir.join "igor") = false) :
    install_procedure_files env rp ver =
      ⟨(resolve_source env rp).cloned, [], [], .error .missingDirs⟩ := by
  simp only [install_procedure_files]
  rw [hres]
  rcases hmiss with h | h <;> simp [h]

/-- Witness for C3: a local source whose subdirectories do not exist. -/
def envMissingDirs : Env where
  homeDir := some "/home/u"
  docDir := some "/docs"
  dirExists := fun _ => false
  mkdirOk := fun _ => true
  readDir := fun _ => none
  cloneOk := fun _ _ => true
  linkOk := fun _ _ _ => true
  canonical := fun _ => none
  stdinLine := ""

theorem install_aborts_before_dest_on_missing_subdirs_witness :
    install_procedure_files envMissingDirs "/src" (some "9.0") =
      ⟨(resolve_source envMissingDirs "/src").cloned, [], [], .error .missingDirs⟩ :=
  install_aborts_before_dest_on_missing_subdirs envMissingDirs "/src" (some "9.0") "/src"
    (by decide) (Or.inl (by decide))

/-! ## C6 — the Destination Locator is pure path composition -/

/-- C6: for every version string and folder name the Destination Locator
returns exactly
`<documents root>/WaveMetrics/Igor Pro <version> User Files/<folder name>`,
with folder name `User Procedures` for the user role and `Igor Procedures`
for the igor role; it fails exactly when the documents root is
undeterminable.  Its argument list contains nothing but the documents root,
so it cannot (and does not) check that the composed path exists. -/
theorem get_wave_metrics_path_spec :
    (∀ (d : FsPath) (version folder_type : String),
      get_wave_metrics_path (some d) version folder_type =
        .ok (d ++ "/" ++ ("WaveMetrics/Igor Pro " ++ version ++ " User Files/" ++ folder_type)))
    ∧ (∀ version folder_type,
        get_wave_metrics_path none version folder_type = .error .docMissing)
    ∧ FolderRole.user.folderName = "User Procedures"
    ∧ FolderRole.igor.folderName = "Igor Procedures" :=
  ⟨fun _ _ _ => rfl, fun _ _ => rfl, rfl, rfl⟩

/-! ## C7 — error handling of version discovery -/

/-- An environment whose install root is readable but holds zero version
candidates, while everything else a run needs is in place. -/
def envZeroVersions : Env where
  homeDir := some "/home/u"
  docDir := some "/docs"
  dirExists := fun _ => true
  mkdirOk := fun _ => true
  readDir := fun p =>
    if p = igorInstallRoot then some []
    else if p = "/proc/user" then some []
    else if p = "/proc/igor" then some []
    else none
  cloneOk := fun _ _ => true
  linkOk := fun _ _ _ => true
  canonical := fun _ => none
  stdinLine := "9.0\n"

/-- Counterexample to C7: with zero candidate version subdirectories under
the install root, the run does not abort — interactive selection still
returns the typed version and the whole install completes successfully. -/
theorem select_succeeds_with_zero_candidates :
    list_igor_versions envZeroVersions = .ok []
    ∧ select_igor_version envZeroVersions = .ok "9.0"
    ∧ install_procedure_files envZeroVersions "/proc" none =
        ⟨none, ["/docs/WaveMetrics/Igor Pro 9.0 User Files/User Procedures",
                "/docs/WaveMetrics/Igor Pro 9.0 User Files/Igor Procedures"], [], .ok ()⟩ :=
  ⟨by decide, by decide, by decide⟩

/-- C7 as amended: an unreadable install root is a fatal error of version
listing and selection, but zero discovered candidates are not — selection
then returns the trimmed interactive input without any validation. -/
theorem version_discovery_error_handling :
    (∀ env : Env, env.readDir igorInstallRoot = none →
      list_igor_versions env = .error .ioError ∧ select_igor_version env = .error .ioError)
    ∧ (∀ (env : Env) (entries : List DirEntry), env.readDir igorInstallRoot = some entries →
      select_igor_version env = .ok (rtrim env.stdinLine)) := by
  constructor
  · intro env h
    constructor <;> simp [list_igor_versions, select_igor_version, h]
  · intro env entries h
    simp [select_igor_version, list_igor_versions, h]

theorem version_discovery_error_handling_witness :
    (list_igor_versions envMissingDirs = .error .ioError
      ∧ select_igor_version envMissingDirs = .error .ioError)
    ∧ select_igor_version envZeroVersions = .ok (rtrim envZeroVersions.stdinLine) :=
  ⟨version_discovery_error_handling.1 envMissingDirs (by decide),
   version_discovery_error_handling.2 envZeroVersions [] (by decide)⟩

/-! ## C4 — a failed link aborts the batch; created links stay in place -/

/-- The condition under which the loop body of main.rs:179-183 hits a
failing symlink creation for entry `e`. -/
def entryFails (lo : LinkKind → FsPath → FsPath → Bool) (srcDir dstDir : FsPath)
    (e : DirEntry) : Prop :=
  (e.kind = .file ∧ lo .file (srcDir.join e.name) (dstDir.join e.name) = false) ∨
  (e.kind = .dir ∧ lo .dir (srcDir.join e.name) (dstDir.join e.name) = false)

lemma linkEntries_fail_stops (lo : LinkKind → FsPath → FsPath → Bool)
    (srcDir dstDir : FsPath) (pre : List DirEntry) (e : DirEntry) (post : List DirEntry)
    (hok : (linkEntries lo srcDir dstDir pre).ok = true)
    (hf : entryFails lo srcDir dstDir e) :
    linkEntries lo srcDir dstDir (pre ++ e :: post) =
      ⟨(linkEntries lo srcDir dstDir pre).created, false⟩ := by
  induction pre with
  | nil =>
    rw [List.nil_append, linkEntries_cons]
    rcases hf with ⟨hk, hlo⟩ | ⟨hk, hlo⟩ <;> simp [hk, hlo, linkEntries_nil]
  | cons p ps ih =>
    rw [List.cons_append, linkEntries_cons, linkEntries_cons] at *
    cases hk : p.kind with
    | file =>
      simp only [hk] at hok ⊢
      by_cases hlo : lo .file (srcDir.join p.name) (dstDir.join p.name) = true
      · simp only [hlo, if_true] at hok ⊢
        simp [ih hok]
      · simp [hlo] at hok
    | dir =>
      simp only [hk] at hok ⊢
      by_cases hlo : lo .dir (srcDir.join p.name) (dstDir.join p.name) = true
      · simp only [hlo, if_true] at hok ⊢
        simp [ih hok]
      · simp [hlo] at hok
    | other =>
      simp only [hk] at hok ⊢
      exact ih hok

/-- C4: a failing link creation aborts the current batch at once — the batch
reports failure and the links created are exactly those of the entries
before the failing one, whatever siblings follow (first conjunct); and at
run level a failure in the `igor`-role batch leaves every link of the
earlier `user`-role batch (and the partial `igor` batch) in place, with no
rollback (second conjunct). -/
theorem link_failure_aborts_without_rollback :
    (∀ (lo : LinkKind → FsPath → FsPath → Bool) (srcDir dstDir : FsPath)
        (pre : List DirEntry) (e : DirEntry) (post : List DirEntry),
      (linkEntries lo srcDir dstDir pre).ok = true →
      entryFails lo srcDir dstDir e →
      linkEntries lo srcDir dstDir (pre ++ e :: post) =
        ⟨(linkEntries lo srcDir dstDir pre).created, false⟩)
    ∧ (∀ (env : Env) (rp v dd : String) (up ip : FsPath),
      is_git_url rp = false →
      env.dirExists (FsPath.join rp "user") = true →
      env.dirExists (FsPath.join rp "igor") = true →
      env.docDir = some dd →
      up = FsPath.join dd ("WaveMetrics/Igor Pro " ++ v ++ " User Files/" ++ "User Procedures") →
      ip = FsPath.join dd ("WaveMetrics/Igor Pro " ++ v ++ " User Files/" ++ "Igor Procedures") →
      (link_files env (FsPath.join rp "user") up).ok = true →
      (link_files env (FsPath.join rp "igor") ip).ok = false →
      install_procedure_files env rp (some v) =
        ⟨none, [up, ip],
          (link_files env (FsPath.join rp "user") up).created ++
            (link_files env (FsPath.join rp "igor") ip).created,
          .error .linkFailed⟩) := by
  refine ⟨linkEntries_fail_stops, ?_⟩
  intro env rp v dd up ip hgit hu hi hdd hup hip h1 h2
  subst hup; subst hip
  simp [install_procedure_files, resolve_source, hgit, hu, hi, hdd,
    get_wave_metrics_path, FolderRole.folderName, h1, h2]

/-- Environment for the C4 witness: the destination for `z.ipf` in the
`Igor Procedures` folder is already occupied, so exactly that link creation
fails. -/
def envLinkCollision : Env where
  homeDir := some "/home/u"
  docDir := some "/docs"
  dirExists := fun _ => true
  mkdirOk := fun _ => true
  readDir := fun p =>
    if p = "/repo/user" then some [⟨"x.ipf", .file⟩]
    else if p = "/repo/igor" then some [⟨"y.ipf", .file⟩, ⟨"z.ipf", .file⟩]
    else some []
  cloneOk := fun _ _ => true
  linkOk := fun _ _ dst => dst != "/docs/WaveMetrics/Igor Pro 9.0 User Files/Igor Procedures/z.ipf"
  canonical := fun _ => none
  stdinLine := ""

theorem link_failure_aborts_without_rollback_witness :
    (linkEntries envLinkCollision.linkOk "/repo/igor"
        "/docs/WaveMetrics/Igor Pro 9.0 User Files/Igor Procedures"
        ([⟨"y.ipf", .file⟩] ++ ⟨"z.ipf", .file⟩ :: [⟨"w.ipf", .file⟩]) =
      ⟨(linkEntries envLinkCollision.linkOk "/repo/igor"
          "/docs/WaveMetrics/Igor Pro 9.0 User Files/Igor Procedures"
          [⟨"y.ipf", .file⟩]).created, false⟩)
    ∧ install_procedure_files envLinkCollision "/repo" (some "9.0") =
        ⟨none,
          [FsPath.join "/docs" ("WaveMetrics/Igor Pro " ++ "9.0" ++ " User Files/" ++ "User Procedures"),
            FsPath.join "/docs" ("WaveMetrics/Igor Pro " ++ "9.0" ++ " User Files/" ++ "Igor Procedures")],
          (link_files envLinkCollision (FsPath.join "/repo" "user")
              (FsPath.join "/docs" ("WaveMetrics/Igor Pro " ++ "9.0" ++ " User Files/" ++ "User Procedures"))).created ++
            (link_files envLinkCollision (FsPath.join "/repo" "igor")
              (FsPath.join "/docs" ("WaveMetrics/Igor Pro " ++ "9.0" ++ " User Files/" ++ "Igor Procedures"))).created,
          .error .linkFailed⟩ :=
  ⟨link_failure_aborts_without_rollback.1 envLinkCollision.linkOk "/repo/igor"
      "/docs/WaveMetrics/Igor Pro 9.0 User Files/Igor Procedures"
      [⟨"y.ipf", .file⟩] ⟨"z.ipf", .file⟩ [⟨"w.ipf", .file⟩]
      (by decide) (Or.inl ⟨rfl, by decide⟩),
    link_failure_aborts_without_rollback.2 envLinkCollision "/repo" "9.0" "/docs"
      (FsPath.join "/docs" ("WaveMetrics/Igor Pro " ++ "9.0" ++ " User Files/" ++ "User Procedures"))
      (FsPath.join "/docs" ("WaveMetrics/Igor Pro " ++ "9.0" ++ " User Files/" ++ "Igor Procedures"))
      (by decide) (by decide) (by decide) rfl rfl rfl (by decide) (by decide)⟩

/-! ## C5 — the clone cache is reused when the directory already exists -/

/-- C5: when the derived directory name already exists under
`<home>/.igor`, resolution performs no clone and returns that directory
unchanged (first conjunct); a clone is only ever invoked when no directory
of that name exists, and then into exactly that path (second conjunct); and
when the directory is absent and cloning succeeds, a full clone into that
path is performed (third conjunct). -/
theorem clone_cache_reuse :
    (∀ (env : Env) (repo : String) (home : FsPath),
      env.homeDir = some home →
      env.dirExists (FsPath.join home ".igor") = true →
      env.dirExists (clone_dest home repo) = true →
      clone_repository_into_igor env repo = ⟨none, .ok (clone_dest home repo)⟩)
    ∧ (∀ (env : Env) (repo : String) (home : FsPath) (pr : String × FsPath),
      env.homeDir = some home →
      (clone_repository_into_igor env repo).cloned = some pr →
      env.dirExists (clone_dest home repo) = false ∧ pr = (repo, clone_dest home repo))
    ∧ (∀ (env : Env) (repo : String) (home : FsPath),
      env.homeDir = some home →
      env.dirExists (FsPath.join home ".igor") = true →
      env.dirExists (clone_dest home repo) = false →
      env.cloneOk repo (clone_dest home repo) = true →
      clone_repository_into_igor env repo =
        ⟨some (repo, clone_dest home repo), .ok (clone_dest home repo)⟩) := by
  refine ⟨?_, ?_, ?_⟩
  · intro env repo home hh hig hex
    simp [clone_repository_into_igor, hh, hig, hex]
  · intro env repo home pr hh hcl
    simp only [clone_repository_into_igor, hh] at hcl
    by_cases h1 : (!env.dirExists (FsPath.join home ".igor")
        && !env.mkdirOk (FsPath.join home ".igor")) = true
    · rw [if_pos h1] at hcl
      simp at hcl
    · rw [if_neg h1] at hcl
      by_cases h2 : env.dirExists (clone_dest home repo) = true
      · rw [if_pos h2] at hcl
        simp at hcl
      · rw [if_neg h2] at hcl
        refine ⟨by simpa using h2, ?_⟩
        by_cases h3 : env.cloneOk repo (clone_dest home repo) = true
        · rw [if_pos h3] at hcl
          simpa using hcl.symm
        · rw [if_neg h3] at hcl
          simpa using hcl.symm
  · intro env repo home hh hig hex hcl
    simp [clone_repository_into_igor, hh, hig, hex, hcl]

/-- Environment in which the cache directory for `iir` already exists. -/
def envCloneCache : Env where
  homeDir := some "/home/u"
  docDir := some "/docs"
  dirExists := fun _ => true
  mkdirOk := fun _ => true
  readDir := fun _ => some []
  cloneOk := fun _ _ => false
  linkOk := fun _ _ _ => true
  canonical := fun _ => none
  stdinLine := ""

/-- Environment in which only `<home>/.igor` itself exists, so a clone is
required. -/
def envCloneFresh : Env where
  homeDir := some "/home/u"
  docDir := some "/docs"
  dirExists := fun p => p == "/home/u/.igor"
  mkdirOk := fun _ => true
  readDir := fun _ => some []
  cloneOk := fun _ _ => true
  linkOk := fun _ _ _ => true
  canonical := fun _ => none
  stdinLine := ""

theorem clone_cache_reuse_witness :
    clone_repository_into_igor envCloneCache "https://github.com/WSU-Carbon-Lab/iir" =
      ⟨none, .ok (clone_dest "/home/u" "https://github.com/WSU-Carbon-Lab/iir")⟩
    ∧ (envCloneFresh.dirExists (clone_dest "/home/u" "https://github.com/WSU-Carbon-Lab/iir") = false
        ∧ ("https://github.com/WSU-Carbon-Lab/iir",
            "/home/u/.igor/iir")
          = ("https://github.com/WSU-Carbon-Lab/iir",
              clone_dest "/home/u" "https://github.com/WSU-Carbon-Lab/iir"))
    ∧ clone_repository_into_igor envCloneFresh "https://github.com/WSU-Carbon-Lab/iir" =
        ⟨some ("https://github.com/WSU-Carbon-Lab/iir",
            clone_dest "/home/u" "https://github.com/WSU-Carbon-Lab/iir"),
          .ok (clone_dest "/home/u" "https://github.com/WSU-Carbon-Lab/iir")⟩ :=
  ⟨clone_cache_reuse.1 envCloneCache "https://github.com/WSU-Carbon-Lab/iir" "/home/u"
      rfl (by decide) (by decide),
    clone_cache_reuse.2.1 envCloneFresh "https://github.com/WSU-Carbon-Lab/iir" "/home/u"
      ("https://github.com/WSU-Carbon-Lab/iir", "/home/u/.igor/iir") rfl (by decide),
    clone_cache_reuse.2.2 envCloneFresh "https://github.com/WSU-Carbon-Lab/iir" "/home/u"
      rfl (by decide) (by decide) (by decide)⟩

/-! ## C8 — local paths are used verbatim, not canonicalized -/

/-- Modelled from the spec: the Source Resolver contract for `LocalPath`
("canonicalize the path (resolve symlinks, make absolute) and fail if it
does not exist or is not accessible").  `src/main.rs` contains no call to
`fs::canonicalize`; this definition follows the spec's words, against the
`Env.canonical` oracle, for comparison with the code's resolution step. -/
def spec_resolve_local (env : Env) (p : String) : Except RunError FsPath :=
  match env.canonical p with
  | some c => .ok c
  | none => .error .ioError

/-- An environment in which the relative path `proc` exists and
canonicalizes to `/home/u/proc`. -/
def envRelPath : Env where
  homeDir := some "/home/u"
  docDir := some "/docs"
  dirExists := fun _ => true
  mkdirOk := fun _ => true
  readDir := fun _ => some []
  cloneOk := fun _ _ => true
  linkOk := fun _ _ _ => true
  canonical := fun s => if s = "proc" then some "/home/u/proc" else none
  stdinLine := ""

/-- An environment in which no path exists at all. -/
def envVanished : Env where
  homeDir := some "/home/u"
  docDir := some "/docs"
  dirExists := fun _ => false
  mkdirOk := fun _ => true
  readDir := fun _ => none
  cloneOk := fun _ _ => true
  linkOk := fun _ _ _ => true
  canonical := fun _ => none
  stdinLine := ""

/-- Counterexample to C8: the resolver hands the local spec `proc` through
verbatim although its canonical form is `/home/u/proc`, so it does not
canonicalize; and for the nonexistent path `missing` — where the spec's
resolver fails — resolution still succeeds with the verbatim path. -/
theorem local_path_not_canonicalized :
    (resolve_source envRelPath "proc").result = .ok "proc"
    ∧ spec_resolve_local envRelPath "proc" = .ok "/home/u/proc"
    ∧ (resolve_source envRelPath "proc").result ≠ spec_resolve_local envRelPath "proc"
    ∧ (resolve_source envVanished "missing").result = .ok "missing"
    ∧ spec_resolve_local envVanished "missing" = .error .ioError :=
  ⟨by decide, by decide, by decide, by decide, by decide⟩

/-- C8 as amended: a spec not classified as a git URL is used verbatim as
the repo root — resolution never canonicalizes and never fails for it — and
a missing local path only surfaces afterwards, when the structural check of
the `user` subdirectory fails and the run exits non-zero having mutated
nothing. -/
theorem local_path_used_verbatim :
    (∀ (env : Env) (p : String), is_git_url p = false →
      resolve_source env p = ⟨none, .ok p⟩)
    ∧ (∀ (env : Env) (p : String) (ver : Option String), is_git_url p = false →
      env.dirExists (FsPath.join p "user") = false →
      install_procedure_files env p ver = ⟨none, [], [], .error .missingDirs⟩) := by
  constructor
  · intro env p h
    simp [resolve_source, h]
  · intro env p ver h hne
    simp [install_procedure_files, resolve_source, h, hne]

theorem local_path_used_verbatim_witness :
    resolve_source envVanished "missing" = ⟨none, .ok "missing"⟩
    ∧ install_procedure_files envVanished "missing" none =
        ⟨none, [], [], .error .missingDirs⟩ :=
  ⟨local_path_used_verbatim.1 envVanished "missing" (by decide),
    local_path_used_verbatim.2 envVanished "missing" none (by decide) (by decide)⟩

/-! ## C9 — the cache directory name is the final URL segment -/

lemma rsplit_ne_nil (sep : Char) (l : List Char) : rsplit sep l ≠ [] := by
  induction l with
  | nil => simp [rsplit]
  | cons c cs ih =>
    by_cases h : c = sep
    · simp [rsplit, h]
    · cases hr : rsplit sep cs with
      | nil => exact absurd hr ih
      | cons g gs => simp [rsplit, h, hr]

lemma rsplit_no_sep (sep : Char) (l : List Char) (h : sep ∉ l) : rsplit sep l = [l] := by
  induction l with
  | nil => rfl
  | cons c cs ih =>
    rw [List.mem_cons] at h
    push_neg at h
    have hne : ¬c = sep := fun hc => h.1 hc.symm
    have hcs := ih h.2
    simp [rsplit, hne, hcs]

lemma rsplit_length_two (sep : Char) (l : List Char) (h : sep ∈ l) :
    2 ≤ (rsplit sep l).length := by
  induction l with
  | nil => cases h
  | cons c cs ih =>
    by_cases hc : c = sep
    · have := rsplit_ne_nil sep cs
      have hpos := List.length_pos.mpr this
      simp only [rsplit, if_pos hc, List.length_cons]
      omega
    · have hcs : sep ∈ cs := by
        rcases List.mem_cons.mp h with h1 | h1
        · exact absurd h1.symm hc
        · exact h1
      have hlen := ih hcs
      cases hr : rsplit sep cs with
      | nil => exact absurd hr (rsplit_ne_nil sep cs)
      | cons g gs =>
        rw [hr] at hlen
        simp only [rsplit, if_neg hc, hr, List.length_cons] at hlen ⊢
        omega

lemma rsplit_getLast_after_sep (sep : Char) (xs ys : List Char) :
    (rsplit sep (xs ++ sep :: ys)).getLast? = (rsplit sep ys).getLast? := by
  induction xs with
  | nil =>
    rw [List.nil_append]
    have hstep : rsplit sep (sep :: ys) = [] :: rsplit sep ys := by simp [rsplit]
    rw [hstep]
    cases hr : rsplit sep ys with
    | nil => exact absurd hr (rsplit_ne_nil sep ys)
    | cons g gs => rw [List.getLast?_cons_cons]
  | cons c cs ih =>
    rw [List.cons_append]
    by_cases hc : c = sep
    · have hstep : rsplit sep (c :: (cs ++ sep :: ys)) = [] :: rsplit sep (cs ++ sep :: ys) := by
        simp [rsplit, hc]
      rw [hstep]
      cases hr : rsplit sep (cs ++ sep :: ys) with
      | nil => exact absurd hr (rsplit_ne_nil sep _)
      | cons g gs =>
        rw [List.getLast?_cons_cons, ← hr]
        exact ih
    · have hmem : sep ∈ cs ++ sep :: ys := by simp
      have hlen := rsplit_length_two sep _ hmem
      cases hr : rsplit sep (cs ++ sep :: ys) with
      | nil => exact absurd hr (rsplit_ne_nil sep _)
      | cons g gs =>
        have hstep : rsplit sep (c :: (cs ++ sep :: ys)) = (c :: g) :: gs := by
          simp [rsplit, hc, hr]
        rw [hstep]
        cases gs with
        | nil => rw [hr] at hlen; simp at hlen
        | cons g2 gs2 =>
          rw [List.getLast?_cons_cons]
          have h2 := ih
          rw [hr, List.getLast?_cons_cons] at h2
          exact h2

/-- C9: the cache directory name derived from a URL is the text after the
last `/` (first conjunct; the second covers strings with no `/` at all,
whose final segment is the whole string), and every successful resolution
of a remote source lands on exactly
`<home>/.igor/<derived name>` (third conjunct). -/
theorem repo_name_last_url_segment :
    (∀ xs ys : List Char, '/' ∉ ys →
      repo_name (String.mk (xs ++ '/' :: ys)) = String.mk ys)
    ∧ (∀ ys : List Char, '/' ∉ ys → repo_name (String.mk ys) = String.mk ys)
    ∧ (∀ (env : Env) (repo : String) (home dest : FsPath),
        env.homeDir = some home →
        (clone_repository_into_igor env repo).result = .ok dest →
        dest = FsPath.join (FsPath.join home ".igor") (repo_name repo)) := by
  refine ⟨?_, ?_, ?_⟩
  · intro xs ys h
    simp only [repo_name, String.data]
    rw [rsplit_getLast_after_sep, rsplit_no_sep '/' ys h]
    rfl
  · intro ys h
    simp only [repo_name, String.data]
    rw [rsplit_no_sep '/' ys h]
    rfl
  · intro env repo home dest hh hres
    simp only [clone_repository_into_igor, hh] at hres
    by_cases h1 : (!env.dirExists (FsPath.join home ".igor")
        && !env.mkdirOk (FsPath.join home ".igor")) = true
    · rw [if_pos h1] at hres
      simp at hres
    · rw [if_neg h1] at hres
      by_cases h2 : env.dirExists (clone_dest home repo) = true
      · rw [if_pos h2] at hres
        simpa [clone_dest] using hres.symm
      · rw [if_neg h2] at hres
        by_cases h3 : env.cloneOk repo (clone_dest home repo) = true
        · rw [if_pos h3] at hres
          simpa [clone_dest] using hres.symm
        · rw [if_neg h3] at hres
          simp at hres

theorem repo_name_last_url_segment_witness :
    repo_name (String.mk ("https://github.com/WSU-Carbon-Lab".data ++ '/' :: "iir".data)) =
      String.mk "iir".data
    ∧ repo_name (String.mk "git@host:iir".data) = String.mk "git@host:iir".data
    ∧ "/home/u/.igor/iir" =
        FsPath.join (FsPath.join "/home/u" ".igor")
          (repo_name "https://github.com/WSU-Carbon-Lab/iir") :=
  ⟨repo_name_last_url_segment.1 "https://github.com/WSU-Carbon-Lab".data "iir".data (by decide),
    repo_name_last_url_segment.2.1 "git@host:iir".data (by decide),
    repo_name_last_url_segment.2.2 envCloneFresh "https://github.com/WSU-Carbon-Lab/iir"
      "/home/u" "/home/u/.igor/iir" rfl (by decide)⟩
